import Mathlib

/-!
The `hyphen` extension module (`src/calibre/utils/hyphenation/hyphen.c`).

A shallow embedding of the two entry points of the module, `load_dictionary`
and `simple_hyphenate`, together with the properties of their byte-level
behaviour.

Conventions of the embedding.

* A C `char` is a natural number (its bit pattern); `hyphens[i] & 1` is the low
  bit of that pattern.
* A C array of declared size `n` is a list of length `n`; reads and writes go
  through `load` and `store`, which fail outside the declared size.
* A NUL-terminated C string is the list of its bytes before the terminator, so
  `strlen` is the length of that list.
* `MAX_CHARS` comes from the hyphenation library's header, which is not part of
  this repository; it is a parameter (field of `Env`).
* The hyphenation library, the C library and the CPython runtime are
  parameters as well (fields of `Env`); every call the module makes to them is
  recorded, in order, in a list of `Call`s returned next to the result.
* A function returning `PyObject*` yields an `Outcome`: a value, an exception
  (NULL with the error indicator set), or an access outside an array.
-/

namespace Hyphen

/-! ## Data model -/

/-- The library's dictionary structure `HyphenDict`. The module reads only its
`cset` field; `patterns` stands for everything else the library keeps in it. -/
structure HyphenDict where
  cset : String
  patterns : Nat
  deriving DecidableEq, Repr

/-- A C `FILE *` stream, identified by a number. -/
structure FILE where
  stream : Nat
  deriving DecidableEq, Repr

/-- The Python objects the module can be handed or can return. -/
inductive PyObject where
  | capsule (name : String) (pointer : HyphenDict)
  | unicode (text : String)
  | long (value : Int)
  | other (tag : Nat)
  deriving DecidableEq, Repr

/-- Messages of the exceptions the module or the capsule API raises. The
`%s`, `%u` and `%zu` arguments of `PyErr_Format` are kept as fields. -/
inductive Msg where
  | dictionary_argument_required
  | failed_to_load_dictionary
  | word_too_long (word_str : List Nat) (limit : Nat) (wd_size : Nat)
  | cannot_hyphenate (word_str : List Nat)
  | capsule_invalid
  | capsule_incorrect_name
  | bad_argument_count
  | integer_required
  deriving DecidableEq, Repr

/-- The state of the error indicator when a function returns NULL.
`propagated` is an exception set inside argument conversion or inside a codec
and passed on unchanged. -/
inductive PyErr where
  | TypeError (msg : Msg)
  | ValueError (msg : Msg)
  | OSError (errno : Nat)
  | OverflowError
  | MemoryError
  | propagated (code : Nat)
  deriving DecidableEq, Repr

/-- Result of a function returning `PyObject *`. -/
inductive Outcome (α : Type) where
  | returned (value : α)
  | raised (err : PyErr)
  | out_of_bounds
  deriving DecidableEq, Repr

/-- Calls into the C library, the hyphenation library and the CPython runtime. -/
inductive Call where
  | fdopen (fd : Int)
  | hnj_hyphen_load_file (file : FILE)
  | fclose (file : FILE)
  | PyCapsule_New (dict : HyphenDict)
  | hnj_hyphen_hyphenate (dict : HyphenDict) (word_str : List Nat) (wd_size : Nat)
  | PyMem_Free (word_str : List Nat)
  | PyUnicode_Decode (bytes : List Nat) (cset : String)
  deriving DecidableEq, Repr

/-- Everything the module takes from outside this repository. -/
structure Env where
  /-- The constant `MAX_CHARS` of the library header; positive, since the
  module declares arrays of `2 * MAX_CHARS` and `MAX_CHARS * 3` chars. -/
  MAX_CHARS : Nat
  /-- The call `fdopen(fd, "rb")`: a stream, or `errno` when it returns NULL. -/
  fdopen : Int → Except Nat FILE
  /-- The call `hnj_hyphen_load_file(file)`: `none` is NULL. -/
  hnj_hyphen_load_file : FILE → Option HyphenDict
  /-- Whether `PyCapsule_New` runs out of memory; on a non-NULL pointer that
  is its only failure. -/
  capsule_alloc_fails : HyphenDict → Bool
  /-- The `es` conversion of `PyArg_ParseTuple`: encode the object with the
  given encoding into a freshly allocated NUL-terminated buffer. -/
  es_convert : String → PyObject → Except Nat (List Nat)
  /-- The call `hnj_hyphen_hyphenate(dict, word, word_size, hyphens)` on the
  zero-initialised `hyphens`: the return value and the byte found afterwards at
  each index of `hyphens`. -/
  hnj_hyphen_hyphenate : HyphenDict → List Nat → Nat → Int × (Nat → Nat)
  /-- The call `PyUnicode_Decode(s, size, encoding, "replace")`. -/
  PyUnicode_Decode : List Nat → String → Except Nat String

/-- The capsule name, `CAPSULE_NAME`, defined as "hyphen-dict". -/
def CAPSULE_NAME : String := "hyphen-dict"

/-- The byte `'='`. -/
def MARKER : Nat := 61

/-! ## Arrays of declared size -/

/-- Read `buf[idx]`; `none` outside the array. -/
def load (buf : List Nat) (idx : Nat) : Option Nat :=
  buf[idx]?

/-- Write `buf[idx] = v`; `none` outside the array. -/
def store (buf : List Nat) (idx : Nat) (v : Nat) : Option (List Nat) :=
  if idx < buf.length then some (buf.set idx v) else none

/-- A local array of `size` chars whose element at index `i` is `init i`. -/
def array_of (size : Nat) (init : Nat → Nat) : List Nat :=
  (List.range size).map init

/-- The `strlen` of a C string given by its bytes before the terminator. -/
def strlen (s : List Nat) : Nat := s.length

/-! ## `simple_hyphenate` -/

/-- The locals the insertion loop updates. -/
structure LoopState where
  hyphenated_word : List Nat
  hwl : Nat
  deriving DecidableEq, Repr

/-- One iteration of the loop of `simple_hyphenate`:
```
if (hyphens[i] & 1) { hyphenated_word[hwl++] = '='; }
hyphenated_word[hwl++] = word_str[i];
``` -/
def loop_body (word_str hyphens : List Nat) (s : LoopState) (i : Nat) :
    Option LoopState := do
  let flag ← load hyphens i
  let s1 ←
    if flag &&& 1 ≠ 0 then
      (store s.hyphenated_word s.hwl MARKER).map (fun b => LoopState.mk b (s.hwl + 1))
    else some s
  let c ← load word_str i
  let b ← store s1.hyphenated_word s1.hwl c
  some (LoopState.mk b (s1.hwl + 1))

/-- The iterations `i = 0, …, n - 1` of the loop, from the state at loop entry
(`hwl = 0`, `hyphenated_word` as found on the stack). -/
def loop_upto (word_str hyphens hyphenated_word : List Nat) (n : Nat) :
    Option LoopState :=
  (List.range n).foldlM (loop_body word_str hyphens) (LoopState.mk hyphenated_word 0)

/-- The whole loop `for (size_t i = 0; i < wd_size; i++) { … }`. -/
def insertion_loop (word_str hyphens hyphenated_word : List Nat) (wd_size : Nat) :
    Option LoopState :=
  loop_upto word_str hyphens hyphenated_word wd_size

/-- The bytes `hyphenated_word[0 .. hwl)` that `simple_hyphenate` hands to
`PyUnicode_Decode` after a library call that returned zero and left `flags` in
`hyphens`. `stack` is the content of the uninitialised `hyphenated_word`. -/
def marked_bytes (MAX_CHARS : Nat) (stack : Nat → Nat) (word_str : List Nat)
    (flags : Nat → Nat) : Option (List Nat) :=
  let hyphenated_word := array_of (2 * MAX_CHARS) stack
  let hyphens := array_of (MAX_CHARS * 3) flags
  (insertion_loop word_str hyphens hyphenated_word (strlen word_str)).map
    (fun s => s.hyphenated_word.take s.hwl)

/-- The API function `PyCapsule_GetPointer(obj, name)`. -/
def PyCapsule_GetPointer (obj : PyObject) (name : String) : Except PyErr HyphenDict :=
  match obj with
  | .capsule n p =>
    if n = name then .ok p else .error (.ValueError .capsule_incorrect_name)
  | _ => .error (.ValueError .capsule_invalid)

/-- The helper `get_dict_from_args(args)`. -/
def get_dict_from_args (args : List PyObject) : Except PyErr HyphenDict :=
  match args with
  | [] => .error (.TypeError .dictionary_argument_required)
  | item0 :: _ => PyCapsule_GetPointer item0 CAPSULE_NAME

/-- The call `PyArg_ParseTuple(args, "Oes", &dict_obj, &dict->cset, &word_str)`. -/
def PyArg_ParseTuple_Oes (env : Env) (args : List PyObject) (cset : String) :
    Except PyErr (PyObject × List Nat) :=
  match args with
  | [dict_obj, word] =>
    match env.es_convert cset word with
    | .ok word_str => .ok (dict_obj, word_str)
    | .error code => .error (.propagated code)
  | _ => .error (.TypeError .bad_argument_count)

/-- The entry point `simple_hyphenate(self, args)`. `stack` is what the uninitialised array
`hyphenated_word` holds on entry. -/
def simple_hyphenate (env : Env) (stack : Nat → Nat) (args : List PyObject) :
    Outcome String × List Call :=
  match get_dict_from_args args with
  | .error e => (.raised e, [])
  | .ok dict =>
    match PyArg_ParseTuple_Oes env args dict.cset with
    | .error e => (.raised e, [])
    | .ok (_, word_str) =>
      let wd_size := strlen word_str
      if wd_size ≥ env.MAX_CHARS then
        (.raised (.ValueError (.word_too_long word_str (env.MAX_CHARS - 1) wd_size)),
          [.PyMem_Free word_str])
      else
        let r := env.hnj_hyphen_hyphenate dict word_str wd_size
        if r.1 ≠ 0 then
          (.raised (.ValueError (.cannot_hyphenate word_str)),
            [.hnj_hyphen_hyphenate dict word_str wd_size, .PyMem_Free word_str])
        else
          match marked_bytes env.MAX_CHARS stack word_str r.2 with
          | none =>
            (.out_of_bounds, [.hnj_hyphen_hyphenate dict word_str wd_size])
          | some bytes =>
            match env.PyUnicode_Decode bytes dict.cset with
            | .ok text =>
              (.returned text,
                [.hnj_hyphen_hyphenate dict word_str wd_size, .PyMem_Free word_str,
                  .PyUnicode_Decode bytes dict.cset])
            | .error code =>
              (.raised (.propagated code),
                [.hnj_hyphen_hyphenate dict word_str wd_size, .PyMem_Free word_str,
                  .PyUnicode_Decode bytes dict.cset])

/-! ## `load_dictionary` -/

/-- The call `PyArg_ParseTuple(args, "i", &fd)` with a 32-bit `int`. -/
def PyArg_ParseTuple_i (args : List PyObject) : Except PyErr Int :=
  match args with
  | [.long v] =>
    if -2147483648 ≤ v ∧ v ≤ 2147483647 then .ok v else .error .OverflowError
  | [_] => .error (.TypeError .integer_required)
  | _ => .error (.TypeError .bad_argument_count)

/-- The entry point `load_dictionary(self, args)`. -/
def load_dictionary (env : Env) (args : List PyObject) : Outcome PyObject × List Call :=
  match PyArg_ParseTuple_i args with
  | .error e => (.raised e, [])
  | .ok fd =>
    match env.fdopen fd with
    | .error errno => (.raised (.OSError errno), [.fdopen fd])
    | .ok file =>
      match env.hnj_hyphen_load_file file with
      | none =>
        (.raised (.ValueError .failed_to_load_dictionary),
          [.fdopen fd, .hnj_hyphen_load_file file, .fclose file])
      | some dict =>
        if env.capsule_alloc_fails dict then
          (.raised .MemoryError,
            [.fdopen fd, .hnj_hyphen_load_file file, .PyCapsule_New dict, .fclose file])
        else
          (.returned (.capsule CAPSULE_NAME dict),
            [.fdopen fd, .hnj_hyphen_load_file file, .PyCapsule_New dict])

/-! ## The marker policy, stated on lists -/

/-- What one iteration appends for a flag and a byte: the marker when the flag
is odd, then the byte. -/
def emit (flag c : Nat) : List Nat :=
  if flag &&& 1 ≠ 0 then [MARKER, c] else [c]

/-- The word with a marker before each byte whose own flag is odd; the bytes
of `word` sit at the indices `i, i + 1, …`. -/
def mark_from (flags : Nat → Nat) : Nat → List Nat → List Nat
  | _, [] => []
  | i, c :: cs => emit (flags i) c ++ mark_from flags (i + 1) cs

/-- The policy of the specification, with the flag one index before the byte:
a marker before the byte at index `i` when `0 < i` and the flag at index
`i - 1` is odd (a break after byte `i - 1`). -/
def mark_prev_from (flags : Nat → Nat) : Nat → List Nat → List Nat
  | _, [] => []
  | i, c :: cs =>
    (if 0 < i ∧ flags (i - 1) &&& 1 ≠ 0 then [MARKER, c] else [c])
      ++ mark_prev_from flags (i + 1) cs

/-- Number of indices `i < n` whose flag is odd. -/
def odd_flags (flags : Nat → Nat) (n : Nat) : Nat :=
  ((List.range n).filter (fun i => flags i &&& 1 ≠ 0)).length

/-- Remove every `'='` byte. -/
def strip_markers (bytes : List Nat) : List Nat :=
  bytes.filter (fun b => b ≠ MARKER)

/-- Number of `'='` bytes. -/
def marker_count (bytes : List Nat) : Nat :=
  bytes.count MARKER

/-! ## Sample environments -/

/-- A dictionary with a single-byte character set. -/
def sample_dict : HyphenDict := ⟨"ISO8859-1", 1⟩

/-- The flags the sample library leaves in `hyphens`: the digit `'1'` at
index 1 and the digit `'0'` everywhere else. -/
def sample_flags : Nat → Nat := fun i => if i = 1 then 49 else 48

/-- An environment with the library's `MAX_CHARS` of 100, in which descriptor
3 is a readable dictionary file, descriptor 4 a readable file that is not a
dictionary, negative descriptors cannot be opened, and the library hyphenates
every word with `sample_flags`. -/
def sample_env : Env where
  MAX_CHARS := 100
  fdopen := fun fd => if 0 ≤ fd then .ok ⟨fd.toNat⟩ else .error 9
  hnj_hyphen_load_file := fun file => if file.stream = 3 then some sample_dict else none
  capsule_alloc_fails := fun _ => false
  es_convert := fun _ obj =>
    match obj with
    | .unicode text => .ok (text.toList.map Char.toNat)
    | _ => .error 1
  hnj_hyphen_hyphenate := fun _ _ _ => (0, sample_flags)
  PyUnicode_Decode := fun bytes _ => .ok (String.mk (bytes.map Char.ofNat))

/-- A word of 100 letters `a`. -/
def long_word : String := String.mk (List.replicate 100 'a')

/-- The sample environment with a library that cannot hyphenate any word. -/
def failing_library_env : Env :=
  { sample_env with hnj_hyphen_hyphenate := fun _ _ _ => (1, fun _ => 0) }

/-- The sample environment with no memory left for a new capsule. -/
def no_memory_env : Env :=
  { sample_env with capsule_alloc_fails := fun _ => true }

/-- The flags of the hyphenation `ex-am-ple`: odd at index 1 and at index 3,
the bytes after which the word may be broken. -/
def example_flags : Nat → Nat := fun i => if i = 1 ∨ i = 3 then 49 else 48

/-- The word `"example"` in a single-byte character set. -/
def example_word : List Nat := [101, 120, 97, 109, 112, 108, 101]

/-- The sample environment with a library that hyphenates every word with
`example_flags`. -/
def example_env : Env :=
  { sample_env with hnj_hyphen_hyphenate := fun _ _ _ => (0, example_flags) }

/-- The sample environment with a single-byte character set that has no byte
for code points from 256 on. -/
def latin1_env : Env :=
  { sample_env with
    es_convert := fun _ obj =>
      match obj with
      | .unicode text =>
        if text.toList.all (fun c => c.toNat < 256) then .ok (text.toList.map Char.toNat)
        else .error 2
      | _ => .error 1 }

/-- A dictionary with the character set UTF-8. -/
def utf8_dict : HyphenDict := ⟨"UTF-8", 2⟩

/-- The UTF-8 bytes of a code point below 2048; `none` from there on. -/
def utf8_bytes (c : Nat) : Option (List Nat) :=
  if c < 128 then some [c]
  else if c < 2048 then some [192 + c / 64, 128 + c % 64]
  else none

/-- The UTF-8 bytes of a list of code points, all below 2048. -/
def utf8_encode : List Nat → Option (List Nat)
  | [] => some []
  | c :: cs =>
    match utf8_bytes c, utf8_encode cs with
    | some b, some bs => some (b ++ bs)
    | _, _ => none

/-- The sample environment with the character set UTF-8, for text of code
points below 2048. -/
def utf8_env : Env :=
  { sample_env with
    es_convert := fun _ obj =>
      match obj with
      | .unicode text =>
        match utf8_encode (text.toList.map Char.toNat) with
        | some bytes => .ok bytes
        | none => .error 2
      | _ => .error 1 }

/-- A word of 100 letters capital omega (code point 937), which has no byte in
a Latin-1 character set. -/
def omega_word : String := String.mk (List.replicate 100 (Char.ofNat 937))

/-- A word of 50 letters e with acute accent (code point 233), two bytes each
in UTF-8. -/
def accent_word : String := String.mk (List.replicate 50 (Char.ofNat 233))

/-! ## Lemmas on arrays -/

set_option maxRecDepth 100000

theorem load_array_of (size : Nat) (init : Nat → Nat) (i : Nat) (h : i < size) :
    load (array_of size init) i = some (init i) := by
  simp [load, array_of, List.getElem?_range h]

theorem length_array_of (size : Nat) (init : Nat → Nat) :
    (array_of size init).length = size := by
  simp [array_of]

theorem take_succ_set (buf : List Nat) (k v : Nat) (h : k < buf.length) :
    (buf.set k v).take (k + 1) = buf.take k ++ [v] := by
  induction buf generalizing k with
  | nil => simp at h
  | cons a t ih =>
    cases k with
    | zero => simp
    | succ k =>
      have hk : k < t.length := by simpa using h
      simp [ih k hk]

/-! ## Lemmas on the loop -/

theorem emit_odd (flag c : Nat) (h : flag % 2 = 1) : emit flag c = [MARKER, c] := by
  simp [emit, h]

theorem emit_even (flag c : Nat) (h : ¬ flag % 2 = 1) : emit flag c = [c] := by
  simp [emit, h]

theorem length_emit_le (flag c : Nat) : (emit flag c).length ≤ 2 := by
  unfold emit; split <;> simp

/-- One iteration, when its reads are in range and two more bytes fit. -/
theorem loop_body_spec (word_str hyphens : List Nat) (s : LoopState) (i flag c : Nat)
    (hf : load hyphens i = some flag) (hc : load word_str i = some c)
    (hroom : s.hwl + 1 < s.hyphenated_word.length) :
    ∃ s1, loop_body word_str hyphens s i = some s1 ∧
      s1.hyphenated_word.length = s.hyphenated_word.length ∧
      s1.hwl = s.hwl + (emit flag c).length ∧
      s1.hyphenated_word.take s1.hwl = s.hyphenated_word.take s.hwl ++ emit flag c := by
  by_cases hodd : flag % 2 = 1
  · have h0 : s.hwl < s.hyphenated_word.length := by omega
    refine ⟨⟨(s.hyphenated_word.set s.hwl MARKER).set (s.hwl + 1) c, s.hwl + 2⟩, ?_, ?_, ?_, ?_⟩
    · simp [loop_body, hf, hc, hodd, store, h0, hroom]
    · simp
    · simp [emit, hodd]
    · have h1 : s.hwl + 1 < (s.hyphenated_word.set s.hwl MARKER).length := by simpa using hroom
      have e1 := take_succ_set (s.hyphenated_word.set s.hwl MARKER) (s.hwl + 1) c h1
      have e2 := take_succ_set s.hyphenated_word s.hwl MARKER h0
      rw [emit_odd flag c hodd]
      show List.take (s.hwl + 1 + 1) _ = _
      rw [e1, e2]; simp
  · have h0 : s.hwl < s.hyphenated_word.length := by omega
    refine ⟨⟨s.hyphenated_word.set s.hwl c, s.hwl + 1⟩, ?_, ?_, ?_, ?_⟩
    · simp [loop_body, hf, hc, hodd, store, h0]
    · simp
    · simp [emit, hodd]
    · rw [emit_even flag c hodd]
      exact take_succ_set s.hyphenated_word s.hwl c h0

theorem loop_upto_succ (word_str hyphens hw : List Nat) (n : Nat) :
    loop_upto word_str hyphens hw (n + 1) =
      (loop_upto word_str hyphens hw n).bind (fun s => loop_body word_str hyphens s n) := by
  simp [loop_upto, List.range_succ, List.foldlM_append]

theorem mark_from_append (flags : Nat → Nat) (k : Nat) (l : List Nat) (c : Nat) :
    mark_from flags k (l ++ [c]) = mark_from flags k l ++ emit (flags (k + l.length)) c := by
  induction l generalizing k with
  | nil => simp [mark_from]
  | cons a t ih =>
    have e : k + 1 + t.length = k + (t.length + 1) := by omega
    have h := ih (k + 1)
    rw [e] at h
    show emit (flags k) a ++ mark_from flags (k + 1) (t ++ [c]) = _
    rw [h]
    simp [mark_from]

theorem length_mark_from_le (flags : Nat → Nat) (k : Nat) (l : List Nat) :
    (mark_from flags k l).length ≤ 2 * l.length := by
  induction l generalizing k with
  | nil => simp [mark_from]
  | cons a t ih =>
    have := ih (k + 1)
    have := length_emit_le (flags k) a
    simp only [mark_from, List.length_append, List.length_cons]
    omega

/-- The loop invariant: after `n` iterations the first `hwl` bytes of
`hyphenated_word` are the marked form of the first `n` bytes of the word. -/
theorem loop_upto_spec (word_str hyphens hw : List Nat) (flags : Nat → Nat) (n : Nat)
    (hflags : ∀ i, i < n → load hyphens i = some (flags i))
    (hn : n ≤ word_str.length) (hroom : 2 * n ≤ hw.length) :
    ∃ s, loop_upto word_str hyphens hw n = some s ∧
      s.hyphenated_word.length = hw.length ∧
      s.hwl = (mark_from flags 0 (word_str.take n)).length ∧
      s.hyphenated_word.take s.hwl = mark_from flags 0 (word_str.take n) := by
  induction n with
  | zero => exact ⟨⟨hw, 0⟩, by simp [loop_upto], rfl, by simp [mark_from], by simp [mark_from]⟩
  | succ n ih =>
    obtain ⟨s, hs, hlen, hhwl, htake⟩ :=
      ih (fun i hi => hflags i (by omega)) (by omega) (by omega)
    have hlt : n < word_str.length := by omega
    have hc : load word_str n = some (word_str[n]) := by simp [load, hlt]
    have hbound := length_mark_from_le flags 0 (word_str.take n)
    have hln : (word_str.take n).length = n := by simp; omega
    obtain ⟨s1, hs1, hlen1, hhwl1, htake1⟩ :=
      loop_body_spec word_str hyphens s n (flags n) (word_str[n]) (hflags n (by omega)) hc
        (by rw [hlen, hhwl]; omega)
    have hsplit : word_str.take (n + 1) = word_str.take n ++ [word_str[n]] := by
      rw [List.take_succ, List.getElem?_eq_getElem hlt]; rfl
    have hmark : mark_from flags 0 (word_str.take (n + 1)) =
        mark_from flags 0 (word_str.take n) ++ emit (flags n) (word_str[n]) := by
      rw [hsplit, mark_from_append, hln, Nat.zero_add]
    refine ⟨s1, ?_, ?_, ?_, ?_⟩
    · rw [loop_upto_succ, hs]; simpa using hs1
    · rw [hlen1, hlen]
    · rw [hhwl1, hhwl, hmark, List.length_append]
    · rw [htake1, htake, hmark]

/-- With room for the whole word, the loop terminates normally and the bytes
handed to the decoder are the marked form of the word. -/
theorem marked_bytes_eq (MAX_CHARS : Nat) (stack : Nat → Nat) (word_str : List Nat)
    (flags : Nat → Nat) (h : strlen word_str < MAX_CHARS) :
    marked_bytes MAX_CHARS stack word_str flags = some (mark_from flags 0 word_str) := by
  unfold strlen at h
  obtain ⟨s, hs, _, _, htake⟩ :=
    loop_upto_spec word_str (array_of (MAX_CHARS * 3) flags) (array_of (2 * MAX_CHARS) stack)
      flags word_str.length
      (fun i hi => load_array_of _ _ _ (by omega)) (Nat.le_refl _)
      (by rw [length_array_of]; omega)
  simp only [marked_bytes, insertion_loop, strlen, hs, Option.map_some', htake, List.take_length]

/-! ## Lemmas on the marked form -/

theorem strip_emit (flag c : Nat) : strip_markers (emit flag c) = strip_markers [c] := by
  unfold emit strip_markers
  split <;> simp

theorem strip_mark_from (flags : Nat → Nat) (k : Nat) (l : List Nat) :
    strip_markers (mark_from flags k l) = strip_markers l := by
  induction l generalizing k with
  | nil => rfl
  | cons a t ih =>
    have h1 : strip_markers (mark_from flags k (a :: t)) =
        strip_markers (emit (flags k) a) ++ strip_markers (mark_from flags (k + 1) t) := by
      simp [mark_from, strip_markers]
    have h2 : strip_markers (a :: t) = strip_markers [a] ++ strip_markers t := by
      show strip_markers ([a] ++ t) = _
      simp only [strip_markers, List.filter_append]
    rw [h1, h2, strip_emit, ih]

theorem strip_of_no_marker (l : List Nat) (h : ∀ b ∈ l, b ≠ MARKER) :
    strip_markers l = l := by
  unfold strip_markers
  rw [List.filter_eq_self]
  intro b hb
  simpa using h b hb

theorem count_emit_le (flag c : Nat) :
    marker_count (emit flag c) ≤ marker_count [c] + 1 := by
  unfold emit marker_count
  split <;> simp [List.count_cons]

theorem count_mark_from_le (flags : Nat → Nat) (k : Nat) (l : List Nat) :
    marker_count (mark_from flags k l) ≤ marker_count l + l.length := by
  induction l generalizing k with
  | nil => simp [mark_from, marker_count]
  | cons a t ih =>
    have h1 : marker_count (mark_from flags k (a :: t)) =
        marker_count (emit (flags k) a) + marker_count (mark_from flags (k + 1) t) := by
      simp [mark_from, marker_count]
    have h2 : marker_count (a :: t) = marker_count [a] + marker_count t := by
      show marker_count ([a] ++ t) = _
      simp only [marker_count, List.count_append]
    have := ih (k + 1)
    have := count_emit_le (flags k) a
    rw [h1, h2, List.length_cons]
    omega

theorem count_of_no_marker (l : List Nat) (h : ∀ b ∈ l, b ≠ MARKER) :
    marker_count l = 0 := by
  unfold marker_count
  rw [List.count_eq_zero]
  intro hm
  exact h MARKER hm rfl

theorem odd_flags_succ (flags : Nat → Nat) (n : Nat) :
    odd_flags flags (n + 1) = odd_flags flags n + (if flags n % 2 = 1 then 1 else 0) := by
  unfold odd_flags
  rw [List.range_succ, List.filter_append, List.length_append]
  by_cases h : flags n % 2 = 1 <;> simp [List.filter_cons, h]

theorem length_emit (flag c : Nat) :
    (emit flag c).length = 1 + (if flag % 2 = 1 then 1 else 0) := by
  by_cases h : flag % 2 = 1 <;> simp [emit, h]

theorem length_mark_from (flags : Nat → Nat) (l : List Nat) :
    (mark_from flags 0 l).length = l.length + odd_flags flags l.length := by
  induction l using List.reverseRecOn with
  | nil => simp [mark_from, odd_flags]
  | append_singleton t a ih =>
    rw [mark_from_append, List.length_append, ih, length_emit, List.length_append,
      List.length_singleton, odd_flags_succ, Nat.zero_add]
    omega

theorem mark_from_congr (flags flags2 : Nat → Nat) (k : Nat) (l : List Nat)
    (h : ∀ i, k ≤ i → i < k + l.length → flags2 i &&& 1 = flags i &&& 1) :
    mark_from flags2 k l = mark_from flags k l := by
  induction l generalizing k with
  | nil => rfl
  | cons a t ih =>
    have h0 := h k (Nat.le_refl k) (by simp)
    have ht := ih (k + 1) (fun i h1 h2 => h i (by omega) (by simp only [List.length_cons]; omega))
    simp only [mark_from, emit, h0, ht]

theorem mark_from_no_odd (flags : Nat → Nat) (k : Nat) (l : List Nat)
    (h : ∀ i, k ≤ i → i < k + l.length → flags i &&& 1 = 0) :
    mark_from flags k l = l := by
  induction l generalizing k with
  | nil => rfl
  | cons a t ih =>
    have h0 := h k (Nat.le_refl k) (by simp)
    have ht := ih (k + 1) (fun i h1 h2 => h i (by omega) (by simp only [List.length_cons]; omega))
    simp only [mark_from, emit, h0, ht]
    simp

/-! ## Marker stripping and marker count -/

/-- C1, at a word that is itself the byte `'='`: with no odd flag the output
is the word, and removing the `'='` bytes from it leaves nothing, not the
word. -/
theorem strip_markers_counterexample :
    strlen [61] < 100 ∧
    marked_bytes 100 (fun _ => 0) [61] (fun _ => 48) = some [61] ∧
    strip_markers [61] ≠ [61] := by
  decide

/-- C1 (amended): for every word whose encoded byte length is below
`MAX_CHARS` and which has no `'='` byte of its own, and for every flag array,
removing all `'='` bytes from `hyphenated_word[0..hwl)` reproduces the encoded
word exactly, byte for byte and in the same order. -/
theorem strip_markers_marked_bytes (MAX_CHARS : Nat) (stack : Nat → Nat)
    (word_str : List Nat) (flags : Nat → Nat)
    (hlen : strlen word_str < MAX_CHARS) (hword : ∀ b ∈ word_str, b ≠ MARKER) :
    ∃ out, marked_bytes MAX_CHARS stack word_str flags = some out ∧
      strip_markers out = word_str := by
  refine ⟨mark_from flags 0 word_str, marked_bytes_eq MAX_CHARS stack word_str flags hlen, ?_⟩
  rw [strip_mark_from, strip_of_no_marker word_str hword]

/-- Witness for C1 (amended): the word `"hi"` with the sample flags. -/
theorem strip_markers_marked_bytes_witness :
    strlen [104, 105] < 100 ∧ (∀ b ∈ [104, 105], b ≠ MARKER) ∧
    ∃ out, marked_bytes 100 (fun _ => 0) [104, 105] sample_flags = some out ∧
      strip_markers out = [104, 105] :=
  ⟨by decide, by decide,
    strip_markers_marked_bytes 100 (fun _ => 0) [104, 105] sample_flags (by decide) (by decide)⟩

/-- C2, at the word `"="` with an odd flag at index 0: the output is `"=="`,
two `'='` bytes for a word of one byte. -/
theorem marker_count_counterexample :
    strlen [61] < 100 ∧
    marked_bytes 100 (fun _ => 0) [61] (fun _ => 49) = some [61, 61] ∧
    ¬ marker_count [61, 61] ≤ strlen [61] := by
  decide

/-- C2 (amended): for every word whose encoded byte length `wd_size` is below
`MAX_CHARS` and every flag array, the number of `'='` bytes in the output is at
most `wd_size` plus the number of `'='` bytes of the word itself; for a word
with no `'='` byte of its own it is at most `wd_size`. -/
theorem marker_count_marked_bytes (MAX_CHARS : Nat) (stack : Nat → Nat)
    (word_str : List Nat) (flags : Nat → Nat) (hlen : strlen word_str < MAX_CHARS) :
    ∃ out, marked_bytes MAX_CHARS stack word_str flags = some out ∧
      marker_count out ≤ strlen word_str + marker_count word_str ∧
      ((∀ b ∈ word_str, b ≠ MARKER) → marker_count out ≤ strlen word_str) := by
  refine ⟨mark_from flags 0 word_str, marked_bytes_eq MAX_CHARS stack word_str flags hlen, ?_, ?_⟩
  · have := count_mark_from_le flags 0 word_str
    unfold strlen; omega
  · intro hword
    have := count_mark_from_le flags 0 word_str
    have := count_of_no_marker word_str hword
    unfold strlen; omega

/-- Witness for C2 (amended): the word `"hi"` with the sample flags. -/
theorem marker_count_marked_bytes_witness :
    strlen [104, 105] < 100 ∧
    ∃ out, marked_bytes 100 (fun _ => 0) [104, 105] sample_flags = some out ∧
      marker_count out ≤ strlen [104, 105] + marker_count [104, 105] ∧
      ((∀ b ∈ [104, 105], b ≠ MARKER) → marker_count out ≤ strlen [104, 105]) :=
  ⟨by decide,
    marker_count_marked_bytes 100 (fun _ => 0) [104, 105] sample_flags (by decide)⟩

/-! ## Marker insertion policy -/

/-- C3, at the word `"example"` hyphenated `ex-am-ple` (odd flags at index 1
and index 3): the policy of the specification, a marker before byte `i` when
the flag at index `i - 1` is odd, gives `"ex=am=ple"`; the loop tests
`hyphens[i]` and writes the marker before byte `i` itself, which gives
`"e=xa=mple"`, every marker one byte early. -/
theorem marker_policy_one_byte_early :
    strlen example_word < 100 ∧
    marked_bytes 100 (fun _ => 0) example_word example_flags =
      some [101, 61, 120, 97, 61, 109, 112, 108, 101] ∧
    mark_prev_from example_flags 0 example_word =
      [101, 120, 61, 97, 109, 61, 112, 108, 101] ∧
    marked_bytes 100 (fun _ => 0) example_word example_flags ≠
      some (mark_prev_from example_flags 0 example_word) ∧
    (simple_hyphenate example_env (fun _ => 0)
        [.capsule CAPSULE_NAME sample_dict, .unicode "example"]).1 =
      .returned "e=xa=mple" := by
  decide

/-! ## Failures of `simple_hyphenate` -/

/-- The two leading steps of `simple_hyphenate` on a capsule of the right name
and a word that converts. -/
theorem simple_hyphenate_parsed (env : Env) (stack : Nat → Nat) (dict : HyphenDict)
    (word : PyObject) (word_str : List Nat)
    (hconv : env.es_convert dict.cset word = .ok word_str) :
    simple_hyphenate env stack [.capsule CAPSULE_NAME dict, word] =
      if strlen word_str ≥ env.MAX_CHARS then
        (.raised (.ValueError (.word_too_long word_str (env.MAX_CHARS - 1) (strlen word_str))),
          [.PyMem_Free word_str])
      else if (env.hnj_hyphen_hyphenate dict word_str (strlen word_str)).1 ≠ 0 then
        (.raised (.ValueError (.cannot_hyphenate word_str)),
          [.hnj_hyphen_hyphenate dict word_str (strlen word_str), .PyMem_Free word_str])
      else
        match env.PyUnicode_Decode
            (mark_from (env.hnj_hyphen_hyphenate dict word_str (strlen word_str)).2 0 word_str)
            dict.cset with
        | .ok text =>
          (.returned text,
            [.hnj_hyphen_hyphenate dict word_str (strlen word_str), .PyMem_Free word_str,
              .PyUnicode_Decode
                (mark_from (env.hnj_hyphen_hyphenate dict word_str (strlen word_str)).2 0 word_str)
                dict.cset])
        | .error code =>
          (.raised (.propagated code),
            [.hnj_hyphen_hyphenate dict word_str (strlen word_str), .PyMem_Free word_str,
              .PyUnicode_Decode
                (mark_from (env.hnj_hyphen_hyphenate dict word_str (strlen word_str)).2 0 word_str)
                dict.cset]) := by
  simp only [simple_hyphenate, get_dict_from_args, PyCapsule_GetPointer, if_true,
    PyArg_ParseTuple_Oes, hconv]
  by_cases hlen : strlen word_str ≥ env.MAX_CHARS
  · simp only [hlen, if_true]
  · simp only [hlen, if_false]
    by_cases hrc : (env.hnj_hyphen_hyphenate dict word_str (strlen word_str)).1 ≠ 0
    · simp only [hrc, if_true, ne_eq, not_false_eq_true]
    · simp only [hrc, if_false]
      rw [marked_bytes_eq env.MAX_CHARS stack word_str _ (by omega)]

/-- C4, at two words. A word of 100 characters that the dictionary's character
set cannot encode fails in argument conversion, with that error and not with
the length error. A word of 50 characters, below `MAX_CHARS` = 100, whose
UTF-8 encoding has 100 bytes does meet the length error. -/
theorem simple_hyphenate_length_limit_counterexample :
    latin1_env.MAX_CHARS ≤ omega_word.length ∧
    simple_hyphenate latin1_env (fun _ => 0)
        [.capsule CAPSULE_NAME sample_dict, .unicode omega_word] =
      (.raised (.propagated 2), []) ∧
    accent_word.length < utf8_env.MAX_CHARS ∧
    (simple_hyphenate utf8_env (fun _ => 0)
        [.capsule CAPSULE_NAME utf8_dict, .unicode accent_word]).1 =
      .raised (.ValueError (.word_too_long
        (List.replicate 50 [195, 169]).flatten 99 100)) := by
  decide

/-- C4 (amended): for every dictionary handle and every word that the `es`
conversion encodes into the dictionary's character set, with `wd_size` the
byte length of the encoded word: when `wd_size` is at or above `MAX_CHARS`,
`simple_hyphenate` fails with the length `ValueError`, which carries the
encoded word and the limit `MAX_CHARS - 1`, and makes no call to
`hnj_hyphen_hyphenate`; when `wd_size` is strictly below `MAX_CHARS` the
length error is not raised. -/
theorem simple_hyphenate_length_limit (env : Env) (stack : Nat → Nat) (dict : HyphenDict)
    (word : PyObject) (word_str : List Nat)
    (hconv : env.es_convert dict.cset word = .ok word_str) :
    (env.MAX_CHARS ≤ strlen word_str →
      (simple_hyphenate env stack [.capsule CAPSULE_NAME dict, word]).1 =
        .raised (.ValueError (.word_too_long word_str (env.MAX_CHARS - 1) (strlen word_str))) ∧
      ∀ d w n, Call.hnj_hyphen_hyphenate d w n ∉
        (simple_hyphenate env stack [.capsule CAPSULE_NAME dict, word]).2) ∧
    (strlen word_str < env.MAX_CHARS →
      ∀ w l n, (simple_hyphenate env stack [.capsule CAPSULE_NAME dict, word]).1 ≠
        .raised (.ValueError (.word_too_long w l n))) := by
  rw [simple_hyphenate_parsed env stack dict word word_str hconv]
  constructor
  · intro hlen
    have h : strlen word_str ≥ env.MAX_CHARS := hlen
    simp only [h, if_true, true_and]
    intro d w n hmem
    simp at hmem
  · intro hlen
    have h : ¬ strlen word_str ≥ env.MAX_CHARS := by omega
    simp only [h, if_false]
    intro w l n
    split
    · simp
    · split <;> simp

/-- Witness for C4 (amended): in the sample environment (`MAX_CHARS` is 100) a word of
100 bytes meets the length error and the word `"hi"` does not. -/
theorem simple_hyphenate_length_limit_witness :
    sample_env.es_convert sample_dict.cset (.unicode long_word) = .ok (List.replicate 100 97) ∧
    sample_env.MAX_CHARS ≤ strlen (List.replicate 100 97) ∧
    ((simple_hyphenate sample_env (fun _ => 0)
        [.capsule CAPSULE_NAME sample_dict, .unicode long_word]).1 =
        .raised (.ValueError (.word_too_long (List.replicate 100 97)
          (sample_env.MAX_CHARS - 1) (strlen (List.replicate 100 97)))) ∧
      ∀ d w n, Call.hnj_hyphen_hyphenate d w n ∉
        (simple_hyphenate sample_env (fun _ => 0)
          [.capsule CAPSULE_NAME sample_dict, .unicode long_word]).2) ∧
    sample_env.es_convert sample_dict.cset (.unicode "hi") = .ok [104, 105] ∧
    strlen [104, 105] < sample_env.MAX_CHARS ∧
    ∀ w l n, (simple_hyphenate sample_env (fun _ => 0)
        [.capsule CAPSULE_NAME sample_dict, .unicode "hi"]).1 ≠
      .raised (.ValueError (.word_too_long w l n)) :=
  ⟨rfl, by decide,
    (simple_hyphenate_length_limit sample_env (fun _ => 0) sample_dict (.unicode long_word)
      (List.replicate 100 97) rfl).1 (by decide),
    rfl, by decide,
    (simple_hyphenate_length_limit sample_env (fun _ => 0) sample_dict (.unicode "hi")
      [104, 105] rfl).2 (by decide)⟩

/-- C5: for every word under the maximum length, when `hnj_hyphen_hyphenate`
returns non-zero `simple_hyphenate` fails with the `ValueError` "Cannot
hyphenate word" carrying the word, and so returns no string; when it returns
zero `simple_hyphenate` does not raise that error. -/
theorem simple_hyphenate_library_failure (env : Env) (stack : Nat → Nat) (dict : HyphenDict)
    (word : PyObject) (word_str : List Nat)
    (hconv : env.es_convert dict.cset word = .ok word_str)
    (hlen : strlen word_str < env.MAX_CHARS) :
    ((env.hnj_hyphen_hyphenate dict word_str (strlen word_str)).1 ≠ 0 →
      (simple_hyphenate env stack [.capsule CAPSULE_NAME dict, word]).1 =
        .raised (.ValueError (.cannot_hyphenate word_str))) ∧
    ((env.hnj_hyphen_hyphenate dict word_str (strlen word_str)).1 = 0 →
      ∀ w, (simple_hyphenate env stack [.capsule CAPSULE_NAME dict, word]).1 ≠
        .raised (.ValueError (.cannot_hyphenate w))) := by
  rw [simple_hyphenate_parsed env stack dict word word_str hconv]
  have h : ¬ strlen word_str ≥ env.MAX_CHARS := by omega
  simp only [h, if_false]
  constructor
  · intro hrc
    simp only [hrc, if_true, ne_eq, not_false_eq_true]
  · intro hrc w
    simp only [hrc, ne_eq, not_true_eq_false, if_false]
    split <;> simp

/-- Witness for C5: the word `"hi"` with a library that fails, and with the
sample library, which succeeds. -/
theorem simple_hyphenate_library_failure_witness :
    failing_library_env.es_convert sample_dict.cset (.unicode "hi") = .ok [104, 105] ∧
    strlen [104, 105] < failing_library_env.MAX_CHARS ∧
    (failing_library_env.hnj_hyphen_hyphenate sample_dict [104, 105] (strlen [104, 105])).1 ≠ 0 ∧
    (simple_hyphenate failing_library_env (fun _ => 0)
        [.capsule CAPSULE_NAME sample_dict, .unicode "hi"]).1 =
      .raised (.ValueError (.cannot_hyphenate [104, 105])) ∧
    (sample_env.hnj_hyphen_hyphenate sample_dict [104, 105] (strlen [104, 105])).1 = 0 ∧
    ∀ w, (simple_hyphenate sample_env (fun _ => 0)
        [.capsule CAPSULE_NAME sample_dict, .unicode "hi"]).1 ≠
      .raised (.ValueError (.cannot_hyphenate w)) :=
  ⟨rfl, by decide, by decide,
    (simple_hyphenate_library_failure failing_library_env (fun _ => 0) sample_dict
      (.unicode "hi") [104, 105] rfl (by decide)).1 (by decide),
    by decide,
    (simple_hyphenate_library_failure sample_env (fun _ => 0) sample_dict
      (.unicode "hi") [104, 105] rfl (by decide)).2 (by decide)⟩

/-- C8: two calls of `simple_hyphenate` in the same environment (the same
dictionary, character set and library answer) on the same arguments give the
same result and make the same calls, whatever the uninitialised array
`hyphenated_word` holds on entry to each; this covers every word under the
maximum length, both the marked string and each failure. -/
theorem simple_hyphenate_deterministic (env : Env) (stack1 stack2 : Nat → Nat)
    (args : List PyObject) :
    simple_hyphenate env stack1 args = simple_hyphenate env stack2 args := by
  match hd : get_dict_from_args args with
  | .error e => simp only [simple_hyphenate, hd]
  | .ok dict =>
    match hp : PyArg_ParseTuple_Oes env args dict.cset with
    | .error e => simp only [simple_hyphenate, hd, hp]
    | .ok (dict_obj, word_str) =>
      simp only [simple_hyphenate, hd, hp]
      by_cases hlen : strlen word_str ≥ env.MAX_CHARS
      · simp only [hlen, if_true]
      · simp only [hlen, if_false]
        rw [marked_bytes_eq env.MAX_CHARS stack1 word_str _ (by omega),
          marked_bytes_eq env.MAX_CHARS stack2 word_str _ (by omega)]

/-! ## Array bounds and output length -/

/-- No call of `simple_hyphenate` leaves the declared size of an array. -/
theorem simple_hyphenate_in_bounds (env : Env) (stack : Nat → Nat) (args : List PyObject) :
    (simple_hyphenate env stack args).1 ≠ .out_of_bounds := by
  match hd : get_dict_from_args args with
  | .error e => simp [simple_hyphenate, hd]
  | .ok dict =>
    match hp : PyArg_ParseTuple_Oes env args dict.cset with
    | .error e => simp [simple_hyphenate, hd, hp]
    | .ok (dict_obj, word_str) =>
      simp only [simple_hyphenate, hd, hp]
      by_cases hlen : strlen word_str ≥ env.MAX_CHARS
      · simp [hlen]
      · simp only [hlen, if_false]
        rw [marked_bytes_eq env.MAX_CHARS stack word_str _ (by omega)]
        by_cases hrc : (env.hnj_hyphen_hyphenate dict word_str (strlen word_str)).1 ≠ 0
        · simp [hrc]
        · simp only [hrc, if_false]
          split <;> simp

/-- C9: for every word with `wd_size < MAX_CHARS` and every flag array, in each
iteration `i` the flag index `i` is below `MAX_CHARS * 3`, the size of
`hyphens`, and the write indices `hwl` and `hwl + 1` are below `2 * MAX_CHARS`,
the size of `hyphenated_word`, so the iteration does not fail; the loop ends
with `hwl ≤ 2 * wd_size ≤ 2 * MAX_CHARS - 2`, and the bounds-checked loop
never takes its out-of-bounds branch. -/
theorem insertion_loop_in_bounds (MAX_CHARS : Nat) (stack : Nat → Nat)
    (word_str : List Nat) (flags : Nat → Nat) (hlen : strlen word_str < MAX_CHARS) :
    (array_of (2 * MAX_CHARS) stack).length = 2 * MAX_CHARS ∧
    (array_of (MAX_CHARS * 3) flags).length = MAX_CHARS * 3 ∧
    (∀ i, i < strlen word_str →
      i < MAX_CHARS * 3 ∧
      ∃ s, loop_upto word_str (array_of (MAX_CHARS * 3) flags)
          (array_of (2 * MAX_CHARS) stack) i = some s ∧
        s.hyphenated_word.length = 2 * MAX_CHARS ∧
        s.hwl + 1 < 2 * MAX_CHARS ∧
        (loop_body word_str (array_of (MAX_CHARS * 3) flags) s i).isSome) ∧
    (∃ s, insertion_loop word_str (array_of (MAX_CHARS * 3) flags)
        (array_of (2 * MAX_CHARS) stack) (strlen word_str) = some s ∧
      s.hwl ≤ 2 * strlen word_str ∧ 2 * strlen word_str ≤ 2 * MAX_CHARS - 2) ∧
    marked_bytes MAX_CHARS stack word_str flags ≠ none := by
  unfold strlen at *
  have hflags : ∀ i, i < word_str.length →
      load (array_of (MAX_CHARS * 3) flags) i = some (flags i) :=
    fun i hi => load_array_of _ _ _ (by omega)
  refine ⟨length_array_of _ _, length_array_of _ _, ?_, ?_, ?_⟩
  · intro i hi
    obtain ⟨s, hs, hl, hhwl, _⟩ :=
      loop_upto_spec word_str (array_of (MAX_CHARS * 3) flags) (array_of (2 * MAX_CHARS) stack)
        flags i (fun j hj => hflags j (by omega)) (by omega)
        (by rw [length_array_of]; omega)
    have hb := length_mark_from_le flags 0 (word_str.take i)
    have hti : (word_str.take i).length = i := by simp; omega
    rw [length_array_of] at hl
    have hroom : s.hwl + 1 < 2 * MAX_CHARS := by omega
    refine ⟨by omega, s, hs, hl, hroom, ?_⟩
    obtain ⟨s1, hs1, _⟩ :=
      loop_body_spec word_str (array_of (MAX_CHARS * 3) flags) s i (flags i) (word_str[i])
        (hflags i hi) (by simp [load, hi]) (by omega)
    simp [hs1]
  · obtain ⟨s, hs, _, hhwl, _⟩ :=
      loop_upto_spec word_str (array_of (MAX_CHARS * 3) flags) (array_of (2 * MAX_CHARS) stack)
        flags word_str.length hflags (Nat.le_refl _) (by rw [length_array_of]; omega)
    have hb := length_mark_from_le flags 0 (word_str.take word_str.length)
    have ht : (word_str.take word_str.length).length = word_str.length := by simp
    exact ⟨s, hs, by omega, by omega⟩
  · rw [marked_bytes_eq MAX_CHARS stack word_str flags hlen]
    simp

/-- Witness for C9: the word `"ab"` with the sample flags and `MAX_CHARS` 100. -/
theorem insertion_loop_in_bounds_witness :
    strlen [97, 98] < 100 ∧
    (∃ s, insertion_loop [97, 98] (array_of (100 * 3) sample_flags)
        (array_of (2 * 100) (fun _ => 0)) (strlen [97, 98]) = some s ∧
      s.hwl ≤ 2 * strlen [97, 98] ∧ 2 * strlen [97, 98] ≤ 2 * 100 - 2) ∧
    marked_bytes 100 (fun _ => 0) [97, 98] sample_flags ≠ none :=
  ⟨by decide,
    (insertion_loop_in_bounds 100 (fun _ => 0) [97, 98] sample_flags (by decide)).2.2.2.1,
    (insertion_loop_in_bounds 100 (fun _ => 0) [97, 98] sample_flags (by decide)).2.2.2.2⟩

/-- C10: on a successful library call the length `hwl` of the marked sequence
is `wd_size` plus the number of indices `i < wd_size` with `hyphens[i]` odd;
the output depends on the flags only through their low bits at indices below
`wd_size`; and when none of those flags is odd the output is the input word. -/
theorem insertion_loop_length (MAX_CHARS : Nat) (stack : Nat → Nat)
    (word_str : List Nat) (flags : Nat → Nat) (hlen : strlen word_str < MAX_CHARS) :
    (∃ s, insertion_loop word_str (array_of (MAX_CHARS * 3) flags)
        (array_of (2 * MAX_CHARS) stack) (strlen word_str) = some s ∧
      s.hwl = strlen word_str + odd_flags flags (strlen word_str)) ∧
    (∀ flags2 : Nat → Nat, (∀ i, i < strlen word_str → flags2 i &&& 1 = flags i &&& 1) →
      marked_bytes MAX_CHARS stack word_str flags2 =
        marked_bytes MAX_CHARS stack word_str flags) ∧
    ((∀ i, i < strlen word_str → flags i &&& 1 = 0) →
      marked_bytes MAX_CHARS stack word_str flags = some word_str) := by
  refine ⟨?_, ?_, ?_⟩
  · unfold strlen at *
    obtain ⟨s, hs, _, hhwl, _⟩ :=
      loop_upto_spec word_str (array_of (MAX_CHARS * 3) flags) (array_of (2 * MAX_CHARS) stack)
        flags word_str.length (fun i hi => load_array_of _ _ _ (by omega)) (Nat.le_refl _)
        (by rw [length_array_of]; omega)
    refine ⟨s, hs, ?_⟩
    rw [hhwl, List.take_length, length_mark_from]
  · intro flags2 h
    rw [marked_bytes_eq MAX_CHARS stack word_str flags hlen,
      marked_bytes_eq MAX_CHARS stack word_str flags2 hlen,
      mark_from_congr flags flags2 0 word_str (fun i _ hi => h i (by simpa [strlen] using hi))]
  · intro h
    rw [marked_bytes_eq MAX_CHARS stack word_str flags hlen,
      mark_from_no_odd flags 0 word_str (fun i _ hi => h i (by simpa [strlen] using hi))]

/-- Witness for C10: the word `"ab"` with the sample flags and `MAX_CHARS` 100;
one flag below `wd_size` is odd, so `hwl` is 3. -/
theorem insertion_loop_length_witness :
    strlen [97, 98] < 100 ∧
    ∃ s, insertion_loop [97, 98] (array_of (100 * 3) sample_flags)
        (array_of (2 * 100) (fun _ => 0)) (strlen [97, 98]) = some s ∧
      s.hwl = strlen [97, 98] + odd_flags sample_flags (strlen [97, 98]) :=
  ⟨by decide, (insertion_loop_length 100 (fun _ => 0) [97, 98] sample_flags (by decide)).1⟩

/-! ## `load_dictionary` -/

/-- C6, with no memory left for the capsule: descriptor 3 opens and the
library parses a dictionary from it, yet `load_dictionary` returns no handle;
it fails with `MemoryError`. -/
theorem load_dictionary_counterexample :
    no_memory_env.fdopen 3 = .ok ⟨3⟩ ∧
    no_memory_env.hnj_hyphen_load_file ⟨3⟩ = some sample_dict ∧
    (load_dictionary no_memory_env [.long 3]).1 = .raised .MemoryError ∧
    ∀ handle, (load_dictionary no_memory_env [.long 3]).1 ≠ .returned handle :=
  ⟨rfl, rfl, rfl, fun _ h => by cases h⟩

/-- C6 (amended): for every file descriptor, `load_dictionary` raises `OSError`
exactly when the descriptor cannot be opened for binary reading, raises
`ValueError` exactly when the descriptor opens but the library parses no
dictionary from it, and otherwise returns a capsule wrapping the dictionary
the library produced when the capsule can be created, and fails with the
capsule's `MemoryError` when it cannot. -/
theorem load_dictionary_classification (env : Env) (fd : Int)
    (hfd : -2147483648 ≤ fd ∧ fd ≤ 2147483647) :
    ((∃ errno, (load_dictionary env [.long fd]).1 = .raised (.OSError errno)) ↔
      ∃ errno, env.fdopen fd = .error errno) ∧
    ((∃ msg, (load_dictionary env [.long fd]).1 = .raised (.ValueError msg)) ↔
      ∃ file, env.fdopen fd = .ok file ∧ env.hnj_hyphen_load_file file = none) ∧
    (∀ file dict, env.fdopen fd = .ok file → env.hnj_hyphen_load_file file = some dict →
      (load_dictionary env [.long fd]).1 =
        if env.capsule_alloc_fails dict then .raised .MemoryError
        else .returned (.capsule CAPSULE_NAME dict)) := by
  simp only [load_dictionary, PyArg_ParseTuple_i, hfd, and_self, if_true]
  match hopen : env.fdopen fd with
  | .error errno => simp
  | .ok file =>
    match hload : env.hnj_hyphen_load_file file with
    | none =>
      simp only [hload]
      refine ⟨by simp, by simp [hload], ?_⟩
      intro file1 dict1 h1 h2
      cases h1
      rw [hload] at h2
      cases h2
    | some dict =>
      simp only [hload]
      refine ⟨?_, ?_, ?_⟩
      · by_cases hmem : env.capsule_alloc_fails dict = true <;> simp [hmem]
      · by_cases hmem : env.capsule_alloc_fails dict = true <;> simp [hload, hmem]
      · intro file1 dict1 h1 h2
        cases h1
        rw [hload] at h2
        cases h2
        by_cases hmem : env.capsule_alloc_fails dict = true <;> simp [hmem]

/-- Witness for C6 (amended): descriptor 3 of the sample environment. -/
theorem load_dictionary_classification_witness :
    ((-2147483648 : Int) ≤ 3 ∧ (3 : Int) ≤ 2147483647) ∧
    sample_env.fdopen 3 = .ok ⟨3⟩ ∧
    sample_env.hnj_hyphen_load_file ⟨3⟩ = some sample_dict ∧
    (load_dictionary sample_env [.long 3]).1 =
      if sample_env.capsule_alloc_fails sample_dict then .raised .MemoryError
      else .returned (.capsule CAPSULE_NAME sample_dict) :=
  ⟨by decide, rfl, rfl,
    (load_dictionary_classification sample_env 3 (by decide)).2.2 ⟨3⟩ sample_dict rfl rfl⟩

/-- C7, on the path where loading succeeds: for descriptor 3 of the sample
environment `load_dictionary` opens the stream, loads the dictionary, creates
the capsule and returns it without any `fclose`; the two failing paths past
`fdopen` (descriptor 4 is not a dictionary; no memory for the capsule) do
close the stream. -/
theorem load_dictionary_stream_left_open :
    load_dictionary sample_env [.long 3] =
      (.returned (.capsule CAPSULE_NAME sample_dict),
        [.fdopen 3, .hnj_hyphen_load_file ⟨3⟩, .PyCapsule_New sample_dict]) ∧
    Call.fclose ⟨3⟩ ∉ (load_dictionary sample_env [.long 3]).2 ∧
    Call.fclose ⟨4⟩ ∈ (load_dictionary sample_env [.long 4]).2 ∧
    Call.fclose ⟨3⟩ ∈ (load_dictionary no_memory_env [.long 3]).2 := by
  decide

end Hyphen
